import Mathlib

/-!
Shallow embedding of the admission-control subsystem of the repository:
the token-bucket rate limiter, the fixed-window limiter and the
rate-limit middleware from src/core/rate_limiter.py, the security
rate limiter (IP blocking, suspicious-activity records) and the
log-redaction function from src/core/security.py.

Python floats and timestamps are modelled as rationals; Python dicts
keyed by strings are modelled as total functions with a default value;
text is modelled as List Char.  Word characters for the regex
word-boundary semantics are modelled as ASCII alphanumerics plus
underscore, matching the ASCII log text the redaction patterns target.
-/

/-- TokenBucket from src/core/rate_limiter.py: capacity, refill_rate,
current tokens and the time of the last refill. -/
structure TokenBucket where
  capacity : ℚ
  refill_rate : ℚ
  tokens : ℚ
  last_refill : ℚ
deriving Repr, DecidableEq

/-- TokenBucket.__init__: tokens start at capacity, last_refill at the
creation time (time.time() is passed explicitly as now). -/
def TokenBucket.init (capacity refill_rate now : ℚ) : TokenBucket :=
  ⟨capacity, refill_rate, capacity, now⟩

/-- TokenBucket.consume: refill by elapsed time capped at capacity,
update last_refill, then spend cost tokens if enough are available.
Returns the new bucket and whether the tokens were consumed. -/
def TokenBucket.consume (b : TokenBucket) (now cost : ℚ) : TokenBucket × Bool :=
  let refilled := min b.capacity (b.tokens + (now - b.last_refill) * b.refill_rate)
  if cost ≤ refilled then
    (⟨b.capacity, b.refill_rate, refilled - cost, now⟩, true)
  else
    (⟨b.capacity, b.refill_rate, refilled, now⟩, false)

/-- Run a sequence of consume calls, each a pair (now, cost). -/
def runConsumes : TokenBucket → List (ℚ × ℚ) → TokenBucket
  | b, [] => b
  | b, c :: rest => runConsumes (b.consume c.1 c.2).1 rest

/-- A call sequence is valid from time t when call times are
nondecreasing starting at t and every cost is nonnegative. -/
def callsValidFrom : ℚ → List (ℚ × ℚ) → Bool
  | _, [] => true
  | t, c :: rest => decide (t ≤ c.1) && decide (0 ≤ c.2) && callsValidFrom c.1 rest

/-- Python int() applied to a nonnegative/negative rational: truncation
toward zero. -/
def pyInt (q : ℚ) : ℤ :=
  if 0 ≤ q then Int.floor q else -(Int.floor (-q))

/-- Rate limits per user role, from RateLimiter.__init__ in
src/core/rate_limiter.py. -/
structure RoleLimits where
  requests_per_minute : ℕ
  burst : ℕ
deriving Repr, DecidableEq

def limitsTable : List (String × RoleLimits) :=
  [("admin", ⟨300, 50⟩), ("analyst", ⟨120, 20⟩), ("viewer", ⟨60, 10⟩)]

/-- The dict access self.limits["viewer"] used as the default of
self.limits.get(role, ...). -/
def viewerLimits : RoleLimits :=
  (((limitsTable.find? (fun p => p.1 == "viewer")).map Prod.snd)).getD ⟨0, 0⟩

/-- self.limits.get(role, self.limits["viewer"]). -/
def limitsFor (role : String) : RoleLimits :=
  (((limitsTable.find? (fun p => p.1 == role)).map Prod.snd)).getD viewerLimits

/-- The bucket RateLimiter.get_user_limiter creates on first request:
refill_rate = requests_per_minute / 60, capacity = burst. -/
def freshBucketFor (role : String) (now : ℚ) : TokenBucket :=
  TokenBucket.init ((limitsFor role).burst : ℚ)
    (((limitsFor role).requests_per_minute : ℚ) / 60) now

/-- RateLimiter state: the user_limiters dict (user_id → TokenBucket). -/
structure RateLimiterState where
  user_limiters : String → Option TokenBucket

def emptyRateLimiter : RateLimiterState := ⟨fun _ => none⟩

/-- RateLimiter.get_user_limiter: get or lazily create the bucket for a
user. Returns the bucket and the (possibly extended) state. -/
def RateLimiterState.get_user_limiter (st : RateLimiterState) (user role : String)
    (now : ℚ) : TokenBucket × RateLimiterState :=
  match st.user_limiters user with
  | some b => (b, st)
  | none =>
    let b := freshBucketFor role now
    (b, ⟨fun u => if u == user then some b else st.user_limiters u⟩)

/-- RateLimiter.is_allowed: consume one token from the user bucket. -/
def RateLimiterState.is_allowed (st : RateLimiterState) (user role : String)
    (now : ℚ) : Bool × RateLimiterState :=
  let p := st.get_user_limiter user role now
  let q := p.1.consume now 1
  (q.2, ⟨fun u => if u == user then some q.1 else p.2.user_limiters u⟩)

/-- RateLimiter.get_remaining_tokens: int(limiter.tokens), with no
refill of its own. -/
def RateLimiterState.get_remaining_tokens (st : RateLimiterState) (user role : String)
    (now : ℚ) : ℤ × RateLimiterState :=
  let p := st.get_user_limiter user role now
  (pyInt p.1.tokens, p.2)

/-- RateLimiter.get_reset_time: seconds until the bucket is full at the
refill rate of the (defaulted) role limits. -/
def RateLimiterState.get_reset_time (st : RateLimiterState) (user role : String)
    (now : ℚ) : ℚ × RateLimiterState :=
  let p := st.get_user_limiter user role now
  let refill_rate := ((limitsFor role).requests_per_minute : ℚ) / 60
  if p.1.capacity ≤ p.1.tokens then (0, p.2)
  else ((p.1.capacity - p.1.tokens) / refill_rate, p.2)

/-- Repeat is_allowed n times for one user at one instant, collecting
the returned booleans. -/
def repeatAllowed : RateLimiterState → String → String → ℚ → ℕ → List Bool × RateLimiterState
  | st, _, _, _, 0 => ([], st)
  | st, u, r, t, n + 1 =>
    let p := st.is_allowed u r t
    let q := repeatAllowed p.2 u r t n
    (p.1 :: q.1, q.2)

/-- FixedWindowLimiter from src/core/rate_limiter.py: window size in
seconds, max requests per window, and the per-key deques of request
timestamps. -/
structure FixedWindowLimiter where
  window_size : ℚ
  max_requests : ℕ
  windows : String → List ℚ

/-- FixedWindowLimiter.is_allowed: pop timestamps older than
now - window_size from the front of the deque, then admit (appending
now) when the count is below the limit. -/
def FixedWindowLimiter.is_allowed (L : FixedWindowLimiter) (key : String)
    (now : ℚ) : Bool × FixedWindowLimiter :=
  let window_start := now - L.window_size
  let pruned := (L.windows key).dropWhile (fun t => decide (t < window_start))
  if pruned.length < L.max_requests then
    (true, ⟨L.window_size, L.max_requests,
      fun k => if k == key then pruned ++ [now] else L.windows k⟩)
  else
    (false, ⟨L.window_size, L.max_requests,
      fun k => if k == key then pruned else L.windows k⟩)

/-- Run a sequence of is_allowed calls, each a pair (key, now),
collecting the returned booleans. -/
def runWindow : FixedWindowLimiter → List (String × ℚ) → List Bool × FixedWindowLimiter
  | L, [] => ([], L)
  | L, c :: rest =>
    let p := L.is_allowed c.1 c.2
    let q := runWindow p.2 rest
    (p.1 :: q.1, q.2)

/-- The dict returned by security.RateLimiter.check_rate_limit. -/
structure CheckResult where
  allowed : Bool
  reason : Option String
  retry_after : Option ℕ
  remaining : Option ℕ
deriving Repr, DecidableEq

/-- State of the security.py RateLimiter: the per-key request
timestamps, the blocked-IP set and the per-IP suspicious-activity
records. -/
structure SecurityState where
  requests : String → List ℚ
  blocked_ips : String → Bool
  suspicious_ips : String → List (ℚ × String)

def emptySecurity : SecurityState := ⟨fun _ => [], fun _ => false, fun _ => []⟩

/-- RateLimiter.is_ip_blocked from src/core/security.py. -/
def SecurityState.is_ip_blocked (st : SecurityState) (ip : String) : Bool :=
  st.blocked_ips ip

/-- RateLimiter.record_suspicious_activity: append the event and block
the IP once it has 5 or more recorded events. -/
def SecurityState.record_suspicious_activity (st : SecurityState)
    (ip reason : String) (now : ℚ) : SecurityState :=
  let evs := st.suspicious_ips ip ++ [(now, reason)]
  let blocked := if 5 ≤ evs.length
    then (fun j => if j == ip then true else st.blocked_ips j)
    else st.blocked_ips
  ⟨st.requests, blocked, fun j => if j == ip then evs else st.suspicious_ips j⟩

/-- The dict key ip:user_id, with the Python falsy default
(user_id or "anonymous"). -/
def limiterKey (ip : String) (user : Option String) : String :=
  ip ++ ":" ++ (match user with
    | none => "anonymous"
    | some u => if u == "" then "anonymous" else u)

/-- RateLimiter.check_rate_limit: blocked IPs are rejected first with
retry_after 3600; otherwise the one-minute window for ip:user is
cleaned, a 60-requests-per-minute limit is enforced (recording
suspicious activity on violation), and admitted requests are appended
to the window. -/
def SecurityState.check_rate_limit (st : SecurityState) (ip : String)
    (user : Option String) (now : ℚ) : CheckResult × SecurityState :=
  if st.is_ip_blocked ip then
    (⟨false, some "IP blocked", some 3600, none⟩, st)
  else
    let key := limiterKey ip user
    let cleaned := (st.requests key).filter (fun rt => decide (now - rt < 60))
    if 60 ≤ cleaned.length then
      let st1 : SecurityState :=
        ⟨fun j => if j == key then cleaned else st.requests j,
          st.blocked_ips, st.suspicious_ips⟩
      (⟨false, some "Rate limit exceeded", some 60, none⟩,
        st1.record_suspicious_activity ip "Rate limit exceeded" now)
    else
      (⟨true, none, none, some (60 - (cleaned.length + 1))⟩,
        ⟨fun j => if j == key then cleaned ++ [now] else st.requests j,
          st.blocked_ips, st.suspicious_ips⟩)

/-- The state-mutating operations of the security.py RateLimiter. -/
inductive SecOp where
  | record : String → String → ℚ → SecOp
  | check : String → Option String → ℚ → SecOp

def applySecOp (st : SecurityState) : SecOp → SecurityState
  | .record ip reason now => st.record_suspicious_activity ip reason now
  | .check ip user now => (st.check_rate_limit ip user now).2

def runSecOps : SecurityState → List SecOp → SecurityState
  | st, [] => st
  | st, op :: rest => runSecOps (applySecOp st op) rest

/-- Fold a list of (reason, time) suspicious-activity records for one
IP into the state. -/
def runRecords (ip : String) : SecurityState → List (String × ℚ) → SecurityState
  | st, [] => st
  | st, p :: rest => runRecords ip (st.record_suspicious_activity ip p.1 p.2) rest

/-- A Python exception as seen by the middleware: whether it is a
fastapi HTTPException, and its status code. -/
structure PyExc where
  isHttp : Bool
  code : ℕ
deriving Repr, DecidableEq

/-- The authenticated user the middleware obtains from
get_current_user. -/
structure AuthUser where
  user_id : String
  role : String
deriving Repr, DecidableEq

/-- The observable outcome of rate_limit_middleware: the request is
forwarded to call_next (with or without rate-limit headers), rejected
with 429, or an HTTPException is re-raised. -/
inductive MwResult where
  | forwarded : Bool → MwResult
  | limited429 : MwResult
  | raised : ℕ → MwResult
deriving Repr, DecidableEq

/-- The paths rate_limit_middleware skips. -/
def exemptPaths : List String := ["/health", "/metrics", "/docs", "/openapi.json"]

/-- The except clauses of rate_limit_middleware: a 401 HTTPException
lets the request pass through, any other HTTPException is re-raised,
and every other exception falls to the bare except and the request is
forwarded. -/
def handleMwExc (e : PyExc) : MwResult :=
  if e.isHttp then (if e.code == 401 then .forwarded false else .raised e.code)
  else .forwarded false

/-- rate_limit_middleware from src/core/rate_limiter.py: exempt paths
skip rate limiting; otherwise the try block resolves the user and
evaluates the rate limiter, either of which may raise, and a denied
request is answered with 429. -/
def rate_limit_middleware (path : String) (auth : Except PyExc AuthUser)
    (check : Except PyExc Bool) : MwResult :=
  if exemptPaths.contains path then .forwarded false
  else
    match auth with
    | .error e => handleMwExc e
    | .ok _ =>
      match check with
      | .error e => handleMwExc e
      | .ok allowed => if allowed then .forwarded true else .limited429

/-- Word characters for the regex word-boundary semantics of the
redaction patterns in InputValidator.sanitize_for_logging (ASCII
alphanumerics and underscore). -/
def isWordChar (c : Char) : Bool := c.isAlphanum || c == '_'

def wordAt : Option Char → Bool
  | none => false
  | some c => isWordChar c

/-- A regex word boundary between two adjacent positions (string edges
count as non-word). -/
def isBoundary (a b : Option Char) : Bool := wordAt a != wordAt b

/-- A fixed-length character-class pattern matches a prefix of the
text. -/
def shapeMatches : List (Char → Bool) → List Char → Bool
  | [], _ => true
  | _ :: _, [] => false
  | p :: ps, c :: cs => p c && shapeMatches ps cs

/-- A full regex match of the fixed-length pattern at the current
position: the classes match and both ends sit on a word boundary,
with prev the character just before the position. -/
def bMatch (shape : List (Char → Bool)) (prev : Option Char) (s : List Char) : Bool :=
  shapeMatches shape s && isBoundary prev s.head? &&
    isBoundary (s.take shape.length).getLast? (s.drop shape.length).head?

/-- re.sub for a fixed-length boundary-delimited pattern: scan left to
right, replace each leftmost match by tok and resume after it, keeping
the original previous character as boundary context. Structured with
explicit fuel (one unit per position) so that it computes by structural
recursion; the fuel never runs out when it starts at the length of the
text. -/
def subShapeFuel (shape : List (Char → Bool)) (tok : List Char) :
    ℕ → Option Char → List Char → List Char
  | 0, _, s => s
  | fuel + 1, prev, s =>
    match s with
    | [] => []
    | c :: cs =>
      if bMatch shape prev (c :: cs) then
        tok ++ subShapeFuel shape tok fuel ((c :: cs).take shape.length).getLast?
          (cs.drop (shape.length - 1))
      else
        c :: subShapeFuel shape tok fuel (some c) cs

def subShapeAux (shape : List (Char → Bool)) (tok : List Char)
    (prev : Option Char) (s : List Char) : List Char :=
  subShapeFuel shape tok s.length prev s

def subShape (shape : List (Char → Bool)) (tok : List Char) (s : List Char) : List Char :=
  subShapeAux shape tok none s

/-- Whether the text contains a boundary-delimited occurrence of the
pattern, with prev the character before the first position. -/
def hasBOAux (shape : List (Char → Bool)) (prev : Option Char) : List Char → Bool
  | [] => false
  | c :: cs => bMatch shape prev (c :: cs) || hasBOAux shape (some c) cs

def hasBO (shape : List (Char → Bool)) (s : List Char) : Bool :=
  hasBOAux shape none s

/-- Whether the text contains a plain (not boundary-delimited)
occurrence of the pattern as a substring. -/
def hasShape (shape : List (Char → Bool)) : List Char → Bool
  | [] => false
  | c :: cs => shapeMatches shape (c :: cs) || hasShape shape cs

/-- The boundary context after walking over a block of text: the last
character of the block, or the incoming context when it is empty. -/
def lastCtx (prev : Option Char) (l : List Char) : Option Char :=
  match l.getLast? with
  | none => prev
  | some c => some c

def digitClass (c : Char) : Bool := c.isDigit

def dashClass (c : Char) : Bool := c == '-'

def dGroup (n : ℕ) : List (Char → Bool) := List.replicate n digitClass

/-- The card-number pattern of sanitize_for_logging:
\b\d{4}-\d{4}-\d{4}-\d{4}\b. -/
def cardShape : List (Char → Bool) :=
  dGroup 4 ++ dashClass :: (dGroup 4 ++ dashClass :: (dGroup 4 ++ dashClass :: dGroup 4))

/-- The SSN pattern of sanitize_for_logging: \b\d{3}-\d{2}-\d{4}\b. -/
def ssnShape : List (Char → Bool) :=
  dGroup 3 ++ dashClass :: (dGroup 2 ++ dashClass :: dGroup 4)

def emailTok : List Char := "[EMAIL_REDACTED]".toList

def cardTok : List Char := "[CARD_REDACTED]".toList

def ssnTok : List Char := "[SSN_REDACTED]".toList

/-- The character classes of the email pattern
\b[A-Za-z0-9._%+-]+@[A-Za-z0-9.-]+\.[A-Z|a-z]{2,}\b (the last class
literally includes the bar, as written in the source). -/
def localChar (c : Char) : Bool :=
  c.isAlphanum || c == '.' || c == '_' || c == '%' || c == '+' || c == '-'

def domChar (c : Char) : Bool := c.isAlphanum || c == '.' || c == '-'

def tldChar (c : Char) : Bool := c.isUpper || c.isLower || c == '|'

/-- Backtracking search for the greedy [A-Z|a-z]{2,}\b tail: try the
given length first, then shorter, stopping at two. -/
def tryTld (afterDot : List Char) : ℕ → Option ℕ
  | 0 => none
  | 1 => none
  | n + 2 =>
    match (afterDot.take (n + 2)).getLast? with
    | some lastc =>
      if isBoundary (some lastc) (afterDot.drop (n + 2)).head? then some (n + 2)
      else tryTld afterDot (n + 1)
    | none => tryTld afterDot (n + 1)

/-- Backtracking search for the greedy [A-Za-z0-9.-]+\. split: try the
given domain length first, then shorter, requiring a literal dot after
it and a valid TLD tail. -/
def tryDom (afterAt : List Char) : ℕ → Option ℕ
  | 0 => none
  | d + 1 =>
    match (afterAt.drop (d + 1)).head? with
    | some dot =>
      if dot == '.' then
        match tryTld (afterAt.drop (d + 2)) ((afterAt.drop (d + 2)).takeWhile tldChar).length with
        | some tl => some ((d + 1) + 1 + tl)
        | none => tryDom afterAt d
      else tryDom afterAt d
    | none => tryDom afterAt d

/-- Length of the email-regex match at the current position, if any:
a word boundary, a maximal nonempty local part, a literal at sign, and
the backtracking domain search. -/
def emailMatchLen (prev : Option Char) (s : List Char) : Option ℕ :=
  if isBoundary prev s.head? then
    match (s.takeWhile localChar).length with
    | 0 => none
    | llen + 1 =>
      match (s.drop (llen + 1)).head? with
      | some ch =>
        if ch == '@' then
          match tryDom (s.drop (llen + 2)) ((s.drop (llen + 2)).takeWhile domChar).length with
          | some dn => some ((llen + 1) + 1 + dn)
          | none => none
        else none
      | none => none
  else none

/-- re.sub for the email pattern, with the same fuel discipline as
subShapeFuel. -/
def emailSubFuel : ℕ → Option Char → List Char → List Char
  | 0, _, s => s
  | fuel + 1, prev, s =>
    match s with
    | [] => []
    | c :: cs =>
      match emailMatchLen prev (c :: cs) with
      | some n => emailTok ++ emailSubFuel fuel ((c :: cs).take n).getLast? (cs.drop (n - 1))
      | none => c :: emailSubFuel fuel (some c) cs

def emailSubAux (prev : Option Char) (s : List Char) : List Char :=
  emailSubFuel s.length prev s

def emailSub (s : List Char) : List Char := emailSubAux none s

def truncMarker : List Char := "...[TRUNCATED]".toList

/-- The three substitution passes of sanitize_for_logging, in source
order: email, then card number, then SSN. -/
def redactStage (s : List Char) : List Char :=
  subShape ssnShape ssnTok (subShape cardShape cardTok (emailSub s))

/-- InputValidator.sanitize_for_logging from src/core/security.py:
redact, then truncate to 200 characters plus the marker. -/
def sanitize_for_logging (s : List Char) : List Char :=
  let t := redactStage s
  if 200 < t.length then t.take 200 ++ truncMarker else t

/-- Every class of the pattern maps matched characters to word
characters when the pattern starts. -/
def headWordOnly (sh : List (Char → Bool)) : Prop :=
  ∀ p, sh.head? = some p → ∀ c, p c = true → isWordChar c = true

/-- The last class of the pattern maps matched characters to word
characters. -/
def lastWordOnly (sh : List (Char → Bool)) : Prop :=
  ∀ p, sh.getLast? = some p → ∀ c, p c = true → isWordChar c = true

/-- Input of the C8 counterexample: 188 letters, a space, an SSN-shaped
run, and a trailing digit that suppresses the closing word boundary. -/
def c8Input : List Char := List.replicate 188 'a' ++ " 123-45-6789".toList ++ ['0']

/-- Search for a domain split of a plain (boundary-free) email shape:
some positive number of domain characters, then a literal dot, then at
least two TLD characters. -/
def plainDom (afterAt : List Char) : ℕ → Bool
  | 0 => false
  | d + 1 =>
    match (afterAt.drop (d + 1)).head? with
    | some dot =>
      (dot == '.' && 2 ≤ ((afterAt.drop (d + 2)).takeWhile tldChar).length) ||
        plainDom afterAt d
    | none => plainDom afterAt d

/-- Whether a plain email shape — one or more local characters, an at
sign, one or more domain characters, a dot, two or more TLD
characters, with no word-boundary requirement — starts at the current
position. -/
def emailPlainAt (s : List Char) : Bool :=
  match (s.takeWhile localChar).length with
  | 0 => false
  | llen + 1 =>
    match (s.drop (llen + 1)).head? with
    | some ch =>
      ch == '@' && plainDom (s.drop (llen + 2)) ((s.drop (llen + 2)).takeWhile domChar).length
    | none => false

/-- Whether the text contains a plain email-shaped substring. -/
def hasEmailShape : List Char → Bool
  | [] => false
  | c :: cs => emailPlainAt (c :: cs) || hasEmailShape cs

/-! ### Theorems -/

theorem consume_preserves (b : TokenBucket) (now cost : ℚ)
    (hcap : 0 ≤ b.capacity) (hrate : 0 ≤ b.refill_rate)
    (ht0 : 0 ≤ b.tokens) (_ht1 : b.tokens ≤ b.capacity)
    (hnow : b.last_refill ≤ now) (hcost : 0 ≤ cost) :
    0 ≤ (b.consume now cost).1.tokens ∧
      (b.consume now cost).1.tokens ≤ (b.consume now cost).1.capacity ∧
      (b.consume now cost).1.capacity = b.capacity ∧
      (b.consume now cost).1.refill_rate = b.refill_rate ∧
      (b.consume now cost).1.last_refill = now := by
  have hre0 : 0 ≤ min b.capacity (b.tokens + (now - b.last_refill) * b.refill_rate) :=
    le_min hcap (add_nonneg ht0 (mul_nonneg (sub_nonneg.mpr hnow) hrate))
  have hre1 : min b.capacity (b.tokens + (now - b.last_refill) * b.refill_rate) ≤ b.capacity :=
    min_le_left _ _
  rw [TokenBucket.consume]
  split_ifs with h
  · dsimp only
    exact ⟨by linarith, le_trans (sub_le_self _ hcost) hre1, rfl, rfl, rfl⟩
  · dsimp only
    exact ⟨hre0, hre1, rfl, rfl, rfl⟩

theorem runConsumes_inv : ∀ (calls : List (ℚ × ℚ)) (b : TokenBucket),
    0 ≤ b.capacity → 0 ≤ b.refill_rate → 0 ≤ b.tokens → b.tokens ≤ b.capacity →
    callsValidFrom b.last_refill calls = true →
    0 ≤ (runConsumes b calls).tokens ∧
      (runConsumes b calls).tokens ≤ (runConsumes b calls).capacity
  | [], b, _, _, ht0, ht1, _ => ⟨ht0, ht1⟩
  | c :: rest, b, hcap, hrate, ht0, ht1, hv => by
    simp only [callsValidFrom, Bool.and_eq_true, decide_eq_true_eq] at hv
    obtain ⟨⟨h1, h2⟩, h3⟩ := hv
    obtain ⟨p0, p1, p2, p3, p4⟩ := consume_preserves b c.1 c.2 hcap hrate ht0 ht1 h1 h2
    have := runConsumes_inv rest (b.consume c.1 c.2).1
      (by rw [p2]; exact hcap) (by rw [p3]; exact hrate) p0 p1
      (by rw [p4]; exact h3)
    simpa [runConsumes] using this

theorem callsValidFrom_append_left : ∀ (pre suff : List (ℚ × ℚ)) (t : ℚ),
    callsValidFrom t (pre ++ suff) = true → callsValidFrom t pre = true
  | [], _, _, _ => rfl
  | c :: rest, suff, t, h => by
    simp only [List.cons_append, callsValidFrom, Bool.and_eq_true] at h ⊢
    exact ⟨h.1, callsValidFrom_append_left rest suff c.1 h.2⟩

/-- Claim C1: for every TokenBucket created with capacity c ≥ 0 and refill
rate r ≥ 0, and every sequence of consume(n) calls with n ≥ 0 at
nondecreasing times, 0 ≤ tokens ≤ capacity holds after every consume()
call (i.e. after every prefix of the call sequence). -/
theorem c1_token_bucket_invariant (c r t0 : ℚ) (hc : 0 ≤ c) (hr : 0 ≤ r)
    (pre suff : List (ℚ × ℚ)) (hv : callsValidFrom t0 (pre ++ suff) = true) :
    0 ≤ (runConsumes (TokenBucket.init c r t0) pre).tokens ∧
      (runConsumes (TokenBucket.init c r t0) pre).tokens ≤
        (runConsumes (TokenBucket.init c r t0) pre).capacity :=
  runConsumes_inv pre (TokenBucket.init c r t0) hc hr hc (le_refl c)
    (callsValidFrom_append_left pre suff t0 hv)

/-- Witness for C1 at a concrete bucket and call sequence. -/
theorem c1_token_bucket_invariant_witness :
    0 ≤ (runConsumes (TokenBucket.init 10 1 0) [(0, 1), (2, 3)]).tokens ∧
      (runConsumes (TokenBucket.init 10 1 0) [(0, 1), (2, 3)]).tokens ≤
        (runConsumes (TokenBucket.init 10 1 0) [(0, 1), (2, 3)]).capacity :=
  c1_token_bucket_invariant 10 1 0 (by norm_num) (by norm_num)
    [(0, 1), (2, 3)] [(5, 1)] (by decide)

theorem limitsFor_viewer : limitsFor "viewer" = ⟨60, 10⟩ := by decide

/-- Claim C2: a viewer bucket (capacity 10, refill 1 token/second) hit
with 11 back-to-back consume() calls at one instant admits exactly the
first 10 and denies the 11th. -/
theorem c2_viewer_burst_exhaustion :
    (repeatAllowed emptyRateLimiter "u" "viewer" 0 11).1 =
      List.replicate 10 true ++ [false] := by
  norm_num [repeatAllowed, RateLimiterState.is_allowed, RateLimiterState.get_user_limiter,
    TokenBucket.consume, freshBucketFor, limitsFor_viewer,
    TokenBucket.init, emptyRateLimiter, min_def, List.replicate]

/-- Counterexample to claim C3: a viewer bucket fully drained at t = 0
still reports 0 remaining tokens at t = 10 = 10/r (rate r = 1) because
get_remaining_tokens reads the stored token count without refilling. -/
theorem c3_counterexample :
    ((repeatAllowed emptyRateLimiter "u" "viewer" 0 10).2.get_remaining_tokens
        "u" "viewer" 10).1 = 0 ∧ (0 : ℤ) ≠ 10 := by
  constructor
  · norm_num [repeatAllowed, RateLimiterState.is_allowed, RateLimiterState.get_user_limiter,
      RateLimiterState.get_remaining_tokens, TokenBucket.consume, freshBucketFor,
      limitsFor_viewer, TokenBucket.init, emptyRateLimiter, min_def, pyInt]
  · decide

/-- Claim C3 as amended: get_remaining_tokens returns the floor of the
stored token count and performs no refill, so a drained capacity-10
bucket reports 0 after any idle time; the elapsed-time refill happens
only inside the next consume() call, which finds the bucket full (the
refill computes min(10, 0 + elapsed*r) = 10), succeeds, and leaves 9
tokens. -/
theorem c3_remaining_is_stale (st : RateLimiterState) (user role : String)
    (b : TokenBucket) (now : ℚ) (hb : st.user_limiters user = some b)
    (hcap : b.capacity = 10) (hrate : 0 < b.refill_rate) (htok : b.tokens = 0)
    (hidle : b.last_refill + 10 / b.refill_rate ≤ now) :
    (st.get_remaining_tokens user role now).1 = 0 ∧
      (b.consume now 1).2 = true ∧ (b.consume now 1).1.tokens = 9 := by
  have hfull : (10 : ℚ) ≤ b.tokens + (now - b.last_refill) * b.refill_rate := by
    have h1 : 10 / b.refill_rate ≤ now - b.last_refill := by linarith
    have h2 : (10 : ℚ) ≤ (now - b.last_refill) * b.refill_rate :=
      (div_le_iff₀ hrate).mp h1
    linarith [htok]
  have hmin : min b.capacity (b.tokens + (now - b.last_refill) * b.refill_rate) = 10 := by
    rw [hcap]
    exact min_eq_left hfull
  refine ⟨?_, ?_, ?_⟩
  · simp [RateLimiterState.get_remaining_tokens, RateLimiterState.get_user_limiter,
      hb, pyInt, htok]
  · rw [TokenBucket.consume]
    simp only [hmin]
    norm_num
  · rw [TokenBucket.consume]
    simp only [hmin]
    norm_num

/-- Witness for the amended C3 at a concrete drained bucket. -/
theorem c3_remaining_is_stale_witness :
    ((⟨fun u => if u == "u" then some ⟨10, 1, 0, 0⟩ else none⟩ :
        RateLimiterState).get_remaining_tokens "u" "viewer" 10).1 = 0 ∧
      ((⟨10, 1, 0, 0⟩ : TokenBucket).consume 10 1).2 = true ∧
      ((⟨10, 1, 0, 0⟩ : TokenBucket).consume 10 1).1.tokens = 9 :=
  c3_remaining_is_stale ⟨fun u => if u == "u" then some ⟨10, 1, 0, 0⟩ else none⟩
    "u" "viewer" ⟨10, 1, 0, 0⟩ 10 (by decide) rfl (by norm_num) rfl (by norm_num)

/-- Claim C10: a role outside the limits table is silently given the
viewer limits: lookup yields (60 requests/minute, burst 10), the lazily
created bucket has capacity 10 and refill rate 1 token/second, and both
get_user_limiter and get_reset_time behave exactly as for role
"viewer". -/
theorem c10_unknown_role_defaults (role : String) (h1 : role ≠ "admin")
    (h2 : role ≠ "analyst") (h3 : role ≠ "viewer") (st : RateLimiterState)
    (user : String) (now : ℚ) :
    limitsFor role = ⟨60, 10⟩ ∧
      (st.user_limiters user = none →
        (st.get_user_limiter user role now).1 = ⟨10, 1, 10, now⟩) ∧
      st.get_user_limiter user role now = st.get_user_limiter user "viewer" now ∧
      st.get_reset_time user role now = st.get_reset_time user "viewer" now := by
  have e1 : ("admin" == role) = false := beq_eq_false_iff_ne.mpr (Ne.symm h1)
  have e2 : ("analyst" == role) = false := beq_eq_false_iff_ne.mpr (Ne.symm h2)
  have e3 : ("viewer" == role) = false := beq_eq_false_iff_ne.mpr (Ne.symm h3)
  have hfind : limitsFor role = ⟨60, 10⟩ := by
    simp [limitsFor, limitsTable, viewerLimits, List.find?, e1, e2, e3]
  have hviewer : limitsFor "viewer" = ⟨60, 10⟩ := by decide
  have hfresh : freshBucketFor role now = freshBucketFor "viewer" now := by
    rw [freshBucketFor, freshBucketFor, hfind, hviewer]
  have hget : st.get_user_limiter user role now = st.get_user_limiter user "viewer" now := by
    rw [RateLimiterState.get_user_limiter, RateLimiterState.get_user_limiter, hfresh]
  refine ⟨hfind, ?_, hget, ?_⟩
  · intro hnone
    rw [RateLimiterState.get_user_limiter, hnone]
    simp [freshBucketFor, hfind, TokenBucket.init]
  · rw [RateLimiterState.get_reset_time, RateLimiterState.get_reset_time, hget,
      hfind, hviewer]

/-- Witness for C10 at the concrete unknown role "guest". -/
theorem c10_unknown_role_defaults_witness :
    limitsFor "guest" = ⟨60, 10⟩ ∧
      (emptyRateLimiter.user_limiters "u" = none →
        (emptyRateLimiter.get_user_limiter "u" "guest" 0).1 = ⟨10, 1, 10, 0⟩) ∧
      emptyRateLimiter.get_user_limiter "u" "guest" 0 =
        emptyRateLimiter.get_user_limiter "u" "viewer" 0 ∧
      emptyRateLimiter.get_reset_time "u" "guest" 0 =
        emptyRateLimiter.get_reset_time "u" "viewer" 0 :=
  c10_unknown_role_defaults "guest" (by decide) (by decide) (by decide)
    emptyRateLimiter "u" 0

theorem record_blocked_mono (st : SecurityState) (ip reason j : String) (now : ℚ)
    (h : st.blocked_ips j = true) :
    (st.record_suspicious_activity ip reason now).blocked_ips j = true := by
  simp only [SecurityState.record_suspicious_activity]
  split_ifs with h5
  · by_cases hj : (j == ip) = true <;> simp [hj, h]
  · exact h

theorem check_blocked_mono (st : SecurityState) (ip j : String)
    (user : Option String) (now : ℚ) (h : st.blocked_ips j = true) :
    ((st.check_rate_limit ip user now).2).blocked_ips j = true := by
  simp only [SecurityState.check_rate_limit]
  split_ifs with h1 h2
  · exact h
  · exact record_blocked_mono _ ip "Rate limit exceeded" j now h
  · exact h

theorem applySecOp_blocked_mono (st : SecurityState) (j : String) (op : SecOp)
    (h : st.blocked_ips j = true) : (applySecOp st op).blocked_ips j = true := by
  cases op with
  | record ip reason now => exact record_blocked_mono st ip reason j now h
  | check ip user now => exact check_blocked_mono st ip j user now h

theorem runSecOps_blocked_mono (j : String) : ∀ (ops : List SecOp) (st : SecurityState),
    st.blocked_ips j = true → (runSecOps st ops).blocked_ips j = true
  | [], _, h => h
  | op :: rest, st, h =>
    runSecOps_blocked_mono j rest (applySecOp st op) (applySecOp_blocked_mono st j op h)

theorem record_susp_len (st : SecurityState) (ip reason : String) (now : ℚ) :
    ((st.record_suspicious_activity ip reason now).suspicious_ips ip).length =
      (st.suspicious_ips ip).length + 1 := by
  simp [SecurityState.record_suspicious_activity]

theorem runRecords_blocked (ip : String) : ∀ (recs : List (String × ℚ)) (st : SecurityState),
    recs ≠ [] → 5 ≤ (st.suspicious_ips ip).length + recs.length →
    (runRecords ip st recs).blocked_ips ip = true
  | [], _, h, _ => absurd rfl h
  | [p], st, _, hc => by
    simp only [runRecords, SecurityState.record_suspicious_activity]
    split_ifs with h5
    · simp
    · exfalso
      apply h5
      simp only [List.length_append, List.length_cons, List.length_nil]
      simp only [List.length_cons, List.length_nil] at hc
      omega
  | p :: q :: rest, st, _, hc => by
    simp only [runRecords]
    apply runRecords_blocked ip (q :: rest) (st.record_suspicious_activity ip p.1 p.2)
      (by simp)
    rw [record_susp_len]
    simp only [List.length_cons] at hc ⊢
    omega

/-- Claim C4: once record_suspicious_activity has been called at least 5
times for an IP, that IP is in the blocked set; the block survives any
further sequence of limiter operations, and check_rate_limit for the
blocked IP always answers allowed = false, reason "IP blocked",
retry_after 3600 without touching the state. -/
theorem c4_ip_block_permanent (st : SecurityState) (ip : String)
    (recs : List (String × ℚ)) (ops : List SecOp) (user : Option String) (now : ℚ)
    (hne : recs ≠ []) (hcount : 5 ≤ (st.suspicious_ips ip).length + recs.length) :
    (runRecords ip st recs).blocked_ips ip = true ∧
      (runSecOps (runRecords ip st recs) ops).blocked_ips ip = true ∧
      (runSecOps (runRecords ip st recs) ops).check_rate_limit ip user now =
        (⟨false, some "IP blocked", some 3600, none⟩,
          runSecOps (runRecords ip st recs) ops) := by
  have h1 : (runRecords ip st recs).blocked_ips ip = true :=
    runRecords_blocked ip recs st hne hcount
  have h2 : (runSecOps (runRecords ip st recs) ops).blocked_ips ip = true :=
    runSecOps_blocked_mono ip ops (runRecords ip st recs) h1
  refine ⟨h1, h2, ?_⟩
  rw [SecurityState.check_rate_limit]
  simp [SecurityState.is_ip_blocked, h2]

/-- Witness for C4: five records on a fresh state block the IP through
a later check operation. -/
theorem c4_ip_block_permanent_witness :
    (runRecords "9.9.9.9" emptySecurity
        [("x", 0), ("x", 1), ("x", 2), ("x", 3), ("x", 4)]).blocked_ips "9.9.9.9" = true ∧
      (runSecOps (runRecords "9.9.9.9" emptySecurity
          [("x", 0), ("x", 1), ("x", 2), ("x", 3), ("x", 4)])
          [SecOp.check "9.9.9.9" none 5]).blocked_ips "9.9.9.9" = true ∧
      (runSecOps (runRecords "9.9.9.9" emptySecurity
          [("x", 0), ("x", 1), ("x", 2), ("x", 3), ("x", 4)])
          [SecOp.check "9.9.9.9" none 5]).check_rate_limit "9.9.9.9" none 6 =
        (⟨false, some "IP blocked", some 3600, none⟩,
          runSecOps (runRecords "9.9.9.9" emptySecurity
            [("x", 0), ("x", 1), ("x", 2), ("x", 3), ("x", 4)])
            [SecOp.check "9.9.9.9" none 5]) :=
  c4_ip_block_permanent emptySecurity "9.9.9.9"
    [("x", 0), ("x", 1), ("x", 2), ("x", 3), ("x", 4)]
    [SecOp.check "9.9.9.9" none 5] none 6 (by simp) (by simp [emptySecurity])

/-- Claim C5: a fixed-window limiter with window 60 s and max 5: five
calls at t = 0 are allowed, the sixth at t = 0 is denied, a call at
t = 61 is allowed again, and the stored window then holds exactly the
t = 61 timestamp. -/
theorem c5_window_sequence :
    (runWindow ⟨60, 5, fun _ => []⟩
        [("k", 0), ("k", 0), ("k", 0), ("k", 0), ("k", 0), ("k", 0), ("k", 61)]).1 =
      [true, true, true, true, true, false, true] ∧
      (runWindow ⟨60, 5, fun _ => []⟩
          [("k", 0), ("k", 0), ("k", 0), ("k", 0), ("k", 0), ("k", 0), ("k", 61)]).2.windows
        "k" = [61] := by
  constructor <;>
    norm_num [runWindow, FixedWindowLimiter.is_allowed, List.dropWhile]

/-- Claim C6: when the evaluation inside rate_limit_middleware raises
any exception that is not an HTTPException, the bare except clause
forwards the request to the downstream handler instead of rejecting
it, for every request path. -/
theorem c6_fails_open (path : String) (auth : Except PyExc AuthUser)
    (check : Except PyExc Bool) (e : PyExc) (he : e.isHttp = false)
    (hraise : auth = Except.error e ∨
      ((∃ u, auth = Except.ok u) ∧ check = Except.error e)) :
    rate_limit_middleware path auth check = MwResult.forwarded false := by
  simp only [rate_limit_middleware]
  split_ifs with hp
  · rfl
  · rcases hraise with h | ⟨⟨u, hu⟩, hc⟩
    · rw [h]; simp [handleMwExc, he]
    · rw [hu, hc]; simp [handleMwExc, he]

/-- Witness for C6: a non-HTTP exception during user resolution is
forwarded. -/
theorem c6_fails_open_witness :
    rate_limit_middleware "/v1/questions" (Except.error ⟨false, 0⟩)
      (Except.ok true) = MwResult.forwarded false :=
  c6_fails_open "/v1/questions" (Except.error ⟨false, 0⟩) (Except.ok true)
    ⟨false, 0⟩ rfl (Or.inl rfl)

/-- Claim C7: for a blocked IP, check_rate_limit answers allowed =
false, reason "IP blocked", retry_after 3600, and returns the state
unchanged: in particular the per-key request-timestamp map and the
suspicious-activity map are exactly those before the call. -/
theorem c7_blocked_check_frame (st : SecurityState) (ip : String)
    (user : Option String) (now : ℚ) (hb : st.blocked_ips ip = true) :
    (st.check_rate_limit ip user now).1 =
        ⟨false, some "IP blocked", some 3600, none⟩ ∧
      (st.check_rate_limit ip user now).2 = st ∧
      (st.check_rate_limit ip user now).2.requests = st.requests ∧
      (st.check_rate_limit ip user now).2.suspicious_ips = st.suspicious_ips := by
  rw [SecurityState.check_rate_limit]
  simp [SecurityState.is_ip_blocked, hb]

/-- Witness for C7 at a concrete blocked IP. -/
theorem c7_blocked_check_frame_witness :
    ((⟨fun _ => [], fun j => j == "1.2.3.4", fun _ => []⟩ :
          SecurityState).check_rate_limit "1.2.3.4" none 0).1 =
        ⟨false, some "IP blocked", some 3600, none⟩ ∧
      ((⟨fun _ => [], fun j => j == "1.2.3.4", fun _ => []⟩ :
          SecurityState).check_rate_limit "1.2.3.4" none 0).2 =
        ⟨fun _ => [], fun j => j == "1.2.3.4", fun _ => []⟩ ∧
      ((⟨fun _ => [], fun j => j == "1.2.3.4", fun _ => []⟩ :
          SecurityState).check_rate_limit "1.2.3.4" none 0).2.requests =
        (fun _ => []) ∧
      ((⟨fun _ => [], fun j => j == "1.2.3.4", fun _ => []⟩ :
          SecurityState).check_rate_limit "1.2.3.4" none 0).2.suspicious_ips =
        (fun _ => []) :=
  c7_blocked_check_frame ⟨fun _ => [], fun j => j == "1.2.3.4", fun _ => []⟩
    "1.2.3.4" none 0 (by simp)

theorem subShapeFuel_nil (shape : List (Char → Bool)) (tok : List Char)
    (f : ℕ) (prev : Option Char) : subShapeFuel shape tok f prev [] = [] := by
  cases f <;> rfl

theorem subShapeFuel_irrel (shape : List (Char → Bool)) (tok : List Char) :
    ∀ (f1 : ℕ) (s : List Char) (f2 : ℕ) (prev : Option Char),
    s.length ≤ f1 → s.length ≤ f2 →
    subShapeFuel shape tok f1 prev s = subShapeFuel shape tok f2 prev s
  | 0, s, f2, prev, h1, _ => by
    have hnil : s = [] := List.length_eq_zero.mp (Nat.le_zero.mp h1)
    subst hnil
    rw [subShapeFuel_nil, subShapeFuel_nil]
  | _ + 1, [], f2, prev, _, _ => by rw [subShapeFuel_nil, subShapeFuel_nil]
  | _ + 1, c :: cs, 0, prev, _, h2 => by simp at h2
  | f1 + 1, c :: cs, f2 + 1, prev, h1, h2 => by
    simp only [List.length_cons, Nat.add_le_add_iff_right] at h1 h2
    simp only [subShapeFuel]
    cases hb : bMatch shape prev (c :: cs) with
    | true =>
      simp only [hb, if_true]
      congr 1
      exact subShapeFuel_irrel shape tok f1 (cs.drop (shape.length - 1)) f2 _
        (by rw [List.length_drop]; omega) (by rw [List.length_drop]; omega)
    | false =>
      simp only [hb, Bool.false_eq_true, if_false]
      congr 1
      exact subShapeFuel_irrel shape tok f1 cs f2 (some c) h1 h2

theorem subShapeAux_nil (shape : List (Char → Bool)) (tok : List Char)
    (prev : Option Char) : subShapeAux shape tok prev [] = [] := rfl

theorem subShapeAux_cons_match (shape : List (Char → Bool)) (tok : List Char)
    (prev : Option Char) (c : Char) (cs : List Char)
    (h : bMatch shape prev (c :: cs) = true) :
    subShapeAux shape tok prev (c :: cs) =
      tok ++ subShapeAux shape tok ((c :: cs).take shape.length).getLast?
        (cs.drop (shape.length - 1)) := by
  show subShapeFuel shape tok (cs.length + 1) prev (c :: cs) = _
  simp only [subShapeFuel, h, if_true]
  congr 1
  exact subShapeFuel_irrel shape tok cs.length (cs.drop (shape.length - 1)) _ _
    (by rw [List.length_drop]; omega) (le_refl _)

theorem subShapeAux_cons_nomatch (shape : List (Char → Bool)) (tok : List Char)
    (prev : Option Char) (c : Char) (cs : List Char)
    (h : bMatch shape prev (c :: cs) = false) :
    subShapeAux shape tok prev (c :: cs) = c :: subShapeAux shape tok (some c) cs := by
  show subShapeFuel shape tok (cs.length + 1) prev (c :: cs) = _
  simp only [subShapeFuel, h, Bool.false_eq_true, if_false]
  rfl

theorem lastCtx_cons (ctx : Option Char) (c : Char) (l : List Char) :
    lastCtx ctx (c :: l) = lastCtx (some c) l := by
  cases l with
  | nil => simp [lastCtx]
  | cons d ds =>
    rw [lastCtx, lastCtx, List.getLast?_cons_cons]
    cases h : (d :: ds).getLast? with
    | none => exact absurd (List.getLast?_eq_none_iff.mp h) (by simp)
    | some x => rfl

theorem lastCtx_of_getLast (prev : Option Char) (l : List Char) (c : Char)
    (h : l.getLast? = some c) : lastCtx prev l = some c := by
  rw [lastCtx, h]

theorem drop_pred_cons (c : Char) (cs : List Char) (n : ℕ) (hn : n ≠ 0) :
    cs.drop (n - 1) = (c :: cs).drop n := by
  cases n with
  | zero => exact absurd rfl hn
  | succ m => rfl

theorem shapeMatches_head (sh : List (Char → Bool)) (d : Char) (rest : List Char)
    (hne : sh ≠ []) (h : shapeMatches sh (d :: rest) = true) :
    ∃ p, sh.head? = some p ∧ p d = true := by
  cases sh with
  | nil => exact absurd rfl hne
  | cons p ps =>
    simp only [shapeMatches, Bool.and_eq_true] at h
    exact ⟨p, rfl, h.1⟩

theorem shapeMatches_last : ∀ (sh : List (Char → Bool)) (s : List Char), sh ≠ [] →
    shapeMatches sh s = true →
    ∃ p c, sh.getLast? = some p ∧ (s.take sh.length).getLast? = some c ∧ p c = true
  | [], _, h, _ => absurd rfl h
  | [p], s, _, hm => by
    cases s with
    | nil => simp [shapeMatches] at hm
    | cons c cs =>
      simp only [shapeMatches, Bool.and_eq_true] at hm
      exact ⟨p, c, rfl, by simp, hm.1⟩
  | p :: q :: sh2, s, _, hm => by
    cases s with
    | nil => simp [shapeMatches] at hm
    | cons c cs =>
      simp only [shapeMatches, Bool.and_eq_true] at hm
      obtain ⟨p2, c2, hp2, hc2, hpc⟩ := shapeMatches_last (q :: sh2) cs (by simp) hm.2
      refine ⟨p2, c2, by rw [List.getLast?_cons_cons]; exact hp2, ?_, hpc⟩
      simp only [List.length_cons, List.take_succ_cons]
      simp only [List.length_cons] at hc2
      cases htl : cs.take (sh2.length + 1) with
      | nil => rw [htl] at hc2; simp at hc2
      | cons d ds =>
        rw [htl] at hc2
        rw [List.getLast?_cons_cons]
        exact hc2

theorem digit_isWord (c : Char) (h : digitClass c = true) : isWordChar c = true := by
  simp only [digitClass] at h
  simp [isWordChar, Char.isAlphanum, h]

theorem bMatch_false_of_head_nonword (sh : List (Char → Bool)) (ctx : Option Char)
    (d : Char) (rest : List Char) (hw : isWordChar d = false)
    (hh : headWordOnly sh) (hne : sh ≠ []) :
    bMatch sh ctx (d :: rest) = false := by
  cases h : shapeMatches sh (d :: rest) with
  | false => simp [bMatch, h]
  | true =>
    obtain ⟨p, hp, hpd⟩ := shapeMatches_head sh d rest hne h
    rw [hh p hp d hpd] at hw
    cases hw

theorem hasBOAux_append (sh : List (Char → Bool)) (hne : sh ≠ []) :
    ∀ (t : List Char) (ctx : Option Char) (X : List Char),
    (∀ c ∈ t, ∀ p ∈ sh, p c = false) →
    hasBOAux sh ctx (t ++ X) = hasBOAux sh (lastCtx ctx t) X
  | [], ctx, X, _ => by simp [lastCtx]
  | c :: t2, ctx, X, hrej => by
    have hb : bMatch sh ctx (c :: (t2 ++ X)) = false := by
      cases sh with
      | nil => exact absurd rfl hne
      | cons p ps =>
        have hpc : p c = false := hrej c (by simp) p (by simp)
        simp [bMatch, shapeMatches, hpc]
    rw [List.cons_append, hasBOAux, hb, Bool.false_or]
    rw [hasBOAux_append sh hne t2 (some c) X
      (fun c2 hc2 p hp => hrej c2 (List.mem_cons_of_mem _ hc2) p hp)]
    rw [lastCtx_cons]

theorem hasBOAux_drop (sh : List (Char → Bool)) :
    ∀ (k : ℕ) (s : List Char) (prev : Option Char),
    hasBOAux sh prev s = false →
    hasBOAux sh (lastCtx prev (s.take k)) (s.drop k) = false
  | 0, s, prev, h => by simpa [lastCtx] using h
  | _ + 1, [], _, _ => by simp [hasBOAux, lastCtx]
  | k + 1, c :: cs, prev, h => by
    simp only [hasBOAux, Bool.or_eq_false_iff] at h
    simp only [List.take_succ_cons, List.drop_succ_cons, lastCtx_cons]
    exact hasBOAux_drop sh k cs (some c) h.2

theorem subShapeAux_reflect (shape : List (Char → Bool)) (tok : List Char)
    (htk : tok ≠ []) :
    ∀ (sh : List (Char → Bool)) (s : List Char) (prev : Option Char),
    (∀ c ∈ tok, ∀ p ∈ sh, p c = false) →
    shapeMatches sh (subShapeAux shape tok prev s) = true →
    shapeMatches sh s = true ∧
      (subShapeAux shape tok prev s).take sh.length = s.take sh.length ∧
      (subShapeAux shape tok prev s).drop sh.length =
        subShapeAux shape tok (lastCtx prev (s.take sh.length)) (s.drop sh.length)
  | [], s, prev, _, _ => ⟨rfl, by simp, by simp [lastCtx]⟩
  | p :: ps, s, prev, hrej, hm => by
    cases s with
    | nil =>
      rw [subShapeAux_nil] at hm
      simp [shapeMatches] at hm
    | cons c cs =>
      cases hmm : bMatch shape prev (c :: cs) with
      | true =>
        rw [subShapeAux_cons_match shape tok prev c cs hmm] at hm
        cases htok : tok with
        | nil => exact absurd htok htk
        | cons t0 ts =>
          rw [htok, List.cons_append] at hm
          simp only [shapeMatches, Bool.and_eq_true] at hm
          have hpt : p t0 = false := by
            apply hrej t0 _ p (by simp)
            rw [htok]
            simp
          rw [hpt] at hm
          exact absurd hm.1 (by simp)
      | false =>
        rw [subShapeAux_cons_nomatch shape tok prev c cs hmm] at hm ⊢
        simp only [shapeMatches, Bool.and_eq_true] at hm
        obtain ⟨hpc, hm2⟩ := hm
        obtain ⟨ih1, ih2, ih3⟩ := subShapeAux_reflect shape tok htk ps cs (some c)
          (fun c2 h2 p2 hp2 => hrej c2 h2 p2 (List.mem_cons_of_mem _ hp2)) hm2
        refine ⟨by simp [shapeMatches, hpc, ih1], ?_, ?_⟩
        · simp only [List.length_cons, List.take_succ_cons, ih2]
        · simp only [List.length_cons, List.drop_succ_cons, List.take_succ_cons,
            ih3, lastCtx_cons]

theorem boundary_right_nonword (lc : Char) (o : Option Char)
    (hw : isWordChar lc = true) (h : isBoundary (some lc) o = true) :
    wordAt o = false := by
  have hl : wordAt (some lc) = true := by simp [wordAt, hw]
  rw [isBoundary, hl] at h
  cases hx : wordAt o with
  | false => rfl
  | true => rw [hx] at h; simp at h

theorem boundary_ww_false (a b : Option Char) (ha : wordAt a = true)
    (hb : wordAt b = true) : isBoundary a b = false := by
  simp [isBoundary, ha, hb]

theorem subShapeAux_no_bo (shape : List (Char → Bool)) (tok : List Char)
    (hne : shape ≠ []) (htk : tok ≠ [])
    (hhead : headWordOnly shape) (hlast : lastWordOnly shape)
    (hrej : ∀ c ∈ tok, ∀ p ∈ shape, p c = false) :
    ∀ (N : ℕ) (s : List Char), s.length ≤ N → ∀ (prev : Option Char),
    hasBOAux shape prev (subShapeAux shape tok prev s) = false := by
  intro N
  induction N with
  | zero =>
    intro s hs prev
    have hnil : s = [] := List.length_eq_zero.mp (Nat.le_zero.mp hs)
    subst hnil
    rw [subShapeAux_nil]
    rfl
  | succ N ih =>
    intro s hs prev
    cases s with
    | nil => rw [subShapeAux_nil]; rfl
    | cons c cs =>
      have hcs : cs.length ≤ N := by
        simp only [List.length_cons] at hs
        omega
      cases hm : bMatch shape prev (c :: cs) with
      | false =>
        rw [subShapeAux_cons_nomatch shape tok prev c cs hm]
        rw [hasBOAux]
        refine Bool.or_eq_false_iff.mpr ⟨?_, ih cs hcs (some c)⟩
        cases hb : bMatch shape prev (c :: subShapeAux shape tok (some c) cs) with
        | false => rfl
        | true =>
          exfalso
          have hO : subShapeAux shape tok prev (c :: cs) =
              c :: subShapeAux shape tok (some c) cs :=
            subShapeAux_cons_nomatch shape tok prev c cs hm
          rw [← hO] at hb
          simp only [bMatch, Bool.and_eq_true] at hb
          obtain ⟨⟨hb1, hb2⟩, hb3⟩ := hb
          obtain ⟨hs1, hs2, hs3⟩ :=
            subShapeAux_reflect shape tok htk shape (c :: cs) prev hrej hb1
          obtain ⟨p, lc, hp, hlc, hplc⟩ := shapeMatches_last shape (c :: cs) hne hs1
          have hwlc : isWordChar lc = true := hlast p hp lc hplc
          have hctx : lastCtx prev ((c :: cs).take shape.length) = some lc :=
            lastCtx_of_getLast _ _ _ hlc
          have hhb2 : isBoundary prev (c :: cs).head? = true := by
            rw [hO] at hb2
            simpa using hb2
          rw [hs2] at hb3
          rw [hs3, hctx] at hb3
          cases hr : (c :: cs).drop shape.length with
          | nil =>
            rw [hr, subShapeAux_nil] at hb3
            have hfull : bMatch shape prev (c :: cs) = true := by
              simp only [bMatch, Bool.and_eq_true]
              exact ⟨⟨hs1, by simpa using hhb2⟩, by rw [hr]; exact hb3⟩
            rw [hfull] at hm
            cases hm
          | cons d ds =>
            rw [hr] at hb3
            cases hm2 : bMatch shape (some lc) (d :: ds) with
            | true =>
              simp only [bMatch, Bool.and_eq_true] at hm2
              obtain ⟨⟨hm2a, hm2b⟩, _⟩ := hm2
              obtain ⟨p0, hp0, hp0d⟩ := shapeMatches_head shape d ds hne hm2a
              have hwd : isWordChar d = true := hhead p0 hp0 d hp0d
              have hbf : isBoundary (some lc) (d :: ds).head? = false := by
                apply boundary_ww_false <;> simp [wordAt, hwlc, hwd]
              rw [hbf] at hm2b
              cases hm2b
            | false =>
              rw [subShapeAux_cons_nomatch shape tok (some lc) d ds hm2] at hb3
              have hfull : bMatch shape prev (c :: cs) = true := by
                simp only [bMatch, Bool.and_eq_true]
                refine ⟨⟨hs1, by simpa using hhb2⟩, ?_⟩
                rw [hr]
                simpa using hb3
              rw [hfull] at hm
              cases hm
      | true =>
        rw [subShapeAux_cons_match shape tok prev c cs hm]
        rw [hasBOAux_append shape hne tok prev _ hrej]
        have hmm := hm
        simp only [bMatch, Bool.and_eq_true] at hmm
        obtain ⟨⟨hm1, _⟩, hm3⟩ := hmm
        obtain ⟨p, lc, hp, hlc, hplc⟩ := shapeMatches_last shape (c :: cs) hne hm1
        have hwlc : isWordChar lc = true := hlast p hp lc hplc
        have hsn : cs.drop (shape.length - 1) = (c :: cs).drop shape.length :=
          drop_pred_cons c cs shape.length
            (fun h0 => hne (List.length_eq_zero.mp h0))
        rw [hlc, hsn]
        rw [hlc] at hm3
        have hwr : wordAt ((c :: cs).drop shape.length).head? = false :=
          boundary_right_nonword lc _ hwlc hm3
        cases hr : (c :: cs).drop shape.length with
        | nil =>
          rw [subShapeAux_nil]
          rfl
        | cons d ds =>
          rw [hr] at hwr
          have hwd : isWordChar d = false := by simpa [wordAt] using hwr
          have hnom : bMatch shape (some lc) (d :: ds) = false :=
            bMatch_false_of_head_nonword shape (some lc) d ds hwd hhead hne
          rw [subShapeAux_cons_nomatch shape tok (some lc) d ds hnom]
          rw [hasBOAux]
          have hlen := congrArg List.length hr
          simp only [List.length_drop, List.length_cons] at hlen
          have hn1 : shape.length ≠ 0 := fun h0 => hne (List.length_eq_zero.mp h0)
          have hdslen : ds.length ≤ N := by omega
          refine Bool.or_eq_false_iff.mpr ⟨?_, ih ds hdslen (some d)⟩
          exact bMatch_false_of_head_nonword shape (lastCtx prev tok) d _ hwd hhead hne

theorem subShapeAux_preserve (sc : List (Char → Bool)) (tk : List Char)
    (sh : List (Char → Bool))
    (hscne : sc ≠ []) (htk : tk ≠ [])
    (hscHead : headWordOnly sc) (hscLast : lastWordOnly sc)
    (hshne : sh ≠ []) (hshHead : headWordOnly sh) (hshLast : lastWordOnly sh)
    (hrej : ∀ c ∈ tk, ∀ p ∈ sh, p c = false) :
    ∀ (N : ℕ) (s : List Char), s.length ≤ N → ∀ (prev : Option Char),
    hasBOAux sh prev s = false →
    hasBOAux sh prev (subShapeAux sc tk prev s) = false := by
  intro N
  induction N with
  | zero =>
    intro s hs prev _
    have hnil : s = [] := List.length_eq_zero.mp (Nat.le_zero.mp hs)
    subst hnil
    rw [subShapeAux_nil]
    rfl
  | succ N ih =>
    intro s hs prev h
    cases s with
    | nil => rw [subShapeAux_nil]; rfl
    | cons c cs =>
      have hcs : cs.length ≤ N := by
        simp only [List.length_cons] at hs
        omega
      rw [hasBOAux] at h
      have h1 : bMatch sh prev (c :: cs) = false := (Bool.or_eq_false_iff.mp h).1
      have h2 : hasBOAux sh (some c) cs = false := (Bool.or_eq_false_iff.mp h).2
      cases hm : bMatch sc prev (c :: cs) with
      | false =>
        rw [subShapeAux_cons_nomatch sc tk prev c cs hm]
        rw [hasBOAux]
        refine Bool.or_eq_false_iff.mpr ⟨?_, ih cs hcs (some c) h2⟩
        cases hb : bMatch sh prev (c :: subShapeAux sc tk (some c) cs) with
        | false => rfl
        | true =>
          exfalso
          have hO : subShapeAux sc tk prev (c :: cs) =
              c :: subShapeAux sc tk (some c) cs :=
            subShapeAux_cons_nomatch sc tk prev c cs hm
          rw [← hO] at hb
          simp only [bMatch, Bool.and_eq_true] at hb
          obtain ⟨⟨hb1, hb2⟩, hb3⟩ := hb
          obtain ⟨hs1, hs2, hs3⟩ :=
            subShapeAux_reflect sc tk htk sh (c :: cs) prev hrej hb1
          obtain ⟨p, lc, hp, hlc, hplc⟩ := shapeMatches_last sh (c :: cs) hshne hs1
          have hwlc : isWordChar lc = true := hshLast p hp lc hplc
          have hctx : lastCtx prev ((c :: cs).take sh.length) = some lc :=
            lastCtx_of_getLast _ _ _ hlc
          have hhb2 : isBoundary prev (c :: cs).head? = true := by
            rw [hO] at hb2
            simpa using hb2
          rw [hs2] at hb3
          rw [hs3, hctx] at hb3
          cases hr : (c :: cs).drop sh.length with
          | nil =>
            rw [hr, subShapeAux_nil] at hb3
            have hfull : bMatch sh prev (c :: cs) = true := by
              simp only [bMatch, Bool.and_eq_true]
              exact ⟨⟨hs1, by simpa using hhb2⟩, by rw [hr]; exact hb3⟩
            rw [hfull] at h1
            cases h1
          | cons d ds =>
            rw [hr] at hb3
            cases hm2 : bMatch sc (some lc) (d :: ds) with
            | true =>
              simp only [bMatch, Bool.and_eq_true] at hm2
              obtain ⟨⟨hm2a, hm2b⟩, _⟩ := hm2
              obtain ⟨p0, hp0, hp0d⟩ := shapeMatches_head sc d ds hscne hm2a
              have hwd : isWordChar d = true := hscHead p0 hp0 d hp0d
              have hbf : isBoundary (some lc) (d :: ds).head? = false := by
                apply boundary_ww_false <;> simp [wordAt, hwlc, hwd]
              rw [hbf] at hm2b
              cases hm2b
            | false =>
              rw [subShapeAux_cons_nomatch sc tk (some lc) d ds hm2] at hb3
              have hfull : bMatch sh prev (c :: cs) = true := by
                simp only [bMatch, Bool.and_eq_true]
                refine ⟨⟨hs1, by simpa using hhb2⟩, ?_⟩
                rw [hr]
                simpa using hb3
              rw [hfull] at h1
              cases h1
      | true =>
        rw [subShapeAux_cons_match sc tk prev c cs hm]
        rw [hasBOAux_append sh hshne tk prev _ hrej]
        have hmm := hm
        simp only [bMatch, Bool.and_eq_true] at hmm
        obtain ⟨⟨hm1, _⟩, hm3⟩ := hmm
        obtain ⟨p, lc, hp, hlc, hplc⟩ := shapeMatches_last sc (c :: cs) hscne hm1
        have hwlc : isWordChar lc = true := hscLast p hp lc hplc
        have hsn : cs.drop (sc.length - 1) = (c :: cs).drop sc.length :=
          drop_pred_cons c cs sc.length
            (fun h0 => hscne (List.length_eq_zero.mp h0))
        rw [hlc, hsn]
        rw [hlc] at hm3
        have hwr : wordAt ((c :: cs).drop sc.length).head? = false :=
          boundary_right_nonword lc _ hwlc hm3
        cases hr : (c :: cs).drop sc.length with
        | nil =>
          rw [subShapeAux_nil]
          rfl
        | cons d ds =>
          rw [hr] at hwr
          have hwd : isWordChar d = false := by simpa [wordAt] using hwr
          have hnom : bMatch sc (some lc) (d :: ds) = false :=
            bMatch_false_of_head_nonword sc (some lc) d ds hwd hscHead hscne
          rw [subShapeAux_cons_nomatch sc tk (some lc) d ds hnom]
          rw [hasBOAux]
          have hlen := congrArg List.length hr
          simp only [List.length_drop, List.length_cons] at hlen
          have hn1 : sc.length ≠ 0 := fun h0 => hscne (List.length_eq_zero.mp h0)
          have hdslen : ds.length ≤ N := by omega
          have hsfx := hasBOAux_drop sh sc.length (c :: cs) prev h
          rw [hr] at hsfx
          rw [hasBOAux] at hsfx
          have hsfx2 : hasBOAux sh (some d) ds = false :=
            (Bool.or_eq_false_iff.mp hsfx).2
          refine Bool.or_eq_false_iff.mpr ⟨?_, ih ds hdslen (some d) hsfx2⟩
          exact bMatch_false_of_head_nonword sh (lastCtx prev tk) d _ hwd hshHead hshne

theorem cardShape_ne_nil : cardShape ≠ [] := by
  intro h
  have hl : cardShape.length = 19 := rfl
  rw [h] at hl
  cases hl

theorem ssnShape_ne_nil : ssnShape ≠ [] := by
  intro h
  have hl : ssnShape.length = 11 := rfl
  rw [h] at hl
  cases hl

theorem cardShape_headWord : headWordOnly cardShape := by
  intro p hp c hc
  have hh : cardShape.head? = some digitClass := rfl
  rw [hh] at hp
  rw [← Option.some.inj hp] at hc
  exact digit_isWord c hc

theorem ssnShape_headWord : headWordOnly ssnShape := by
  intro p hp c hc
  have hh : ssnShape.head? = some digitClass := rfl
  rw [hh] at hp
  rw [← Option.some.inj hp] at hc
  exact digit_isWord c hc

theorem cardShape_lastWord : lastWordOnly cardShape := by
  intro p hp c hc
  have hh : cardShape.getLast? = some digitClass := rfl
  rw [hh] at hp
  rw [← Option.some.inj hp] at hc
  exact digit_isWord c hc

theorem ssnShape_lastWord : lastWordOnly ssnShape := by
  intro p hp c hc
  have hh : ssnShape.getLast? = some digitClass := rfl
  rw [hh] at hp
  rw [← Option.some.inj hp] at hc
  exact digit_isWord c hc

theorem mem_cardShape : ∀ p ∈ cardShape, p = digitClass ∨ p = dashClass := by
  intro p hp
  simp only [cardShape, dGroup, List.mem_append, List.mem_cons,
    List.mem_replicate] at hp
  tauto

theorem mem_ssnShape : ∀ p ∈ ssnShape, p = digitClass ∨ p = dashClass := by
  intro p hp
  simp only [ssnShape, dGroup, List.mem_append, List.mem_cons,
    List.mem_replicate] at hp
  tauto

theorem rejects_of_digit_dash (sh : List (Char → Bool)) (tk : List Char)
    (hsh : ∀ p ∈ sh, p = digitClass ∨ p = dashClass)
    (htk : (tk.all fun c => !(digitClass c || dashClass c)) = true) :
    ∀ c ∈ tk, ∀ p ∈ sh, p c = false := by
  intro c hc p hp
  have h2 := List.all_eq_true.mp htk c hc
  simp only [Bool.not_eq_true', Bool.or_eq_false_iff] at h2
  rcases hsh p hp with rfl | rfl
  · exact h2.1
  · exact h2.2

theorem cardTok_chars : (cardTok.all fun c => !(digitClass c || dashClass c)) = true := by
  decide

theorem ssnTok_chars : (ssnTok.all fun c => !(digitClass c || dashClass c)) = true := by
  decide

theorem cardTok_ne_nil : cardTok ≠ [] := by decide

theorem ssnTok_ne_nil : ssnTok ≠ [] := by decide

theorem subShape_card_no_bo (s : List Char) :
    hasBO cardShape (subShape cardShape cardTok s) = false :=
  subShapeAux_no_bo cardShape cardTok cardShape_ne_nil cardTok_ne_nil
    cardShape_headWord cardShape_lastWord
    (rejects_of_digit_dash cardShape cardTok mem_cardShape cardTok_chars)
    s.length s (le_refl _) none

theorem subShape_ssn_no_bo (s : List Char) :
    hasBO ssnShape (subShape ssnShape ssnTok s) = false :=
  subShapeAux_no_bo ssnShape ssnTok ssnShape_ne_nil ssnTok_ne_nil
    ssnShape_headWord ssnShape_lastWord
    (rejects_of_digit_dash ssnShape ssnTok mem_ssnShape ssnTok_chars)
    s.length s (le_refl _) none

theorem subShape_ssn_preserves_card (s : List Char)
    (h : hasBO cardShape s = false) :
    hasBO cardShape (subShape ssnShape ssnTok s) = false :=
  subShapeAux_preserve ssnShape ssnTok cardShape ssnShape_ne_nil ssnTok_ne_nil
    ssnShape_headWord ssnShape_lastWord cardShape_ne_nil cardShape_headWord
    cardShape_lastWord
    (rejects_of_digit_dash cardShape ssnTok mem_cardShape ssnTok_chars)
    s.length s (le_refl _) none h

theorem truncMarker_length : truncMarker.length = 14 := rfl

/-- Claim C8 as amended: sanitize_for_logging returns the redacted text
truncated to at most 200 characters plus the fixed 14-character marker
(total length at most 214), and the redacted text, before truncation,
contains no word-boundary-delimited card-number-shaped
(dddd-dddd-dddd-dddd) or SSN-shaped (ddd-dd-dddd) substring; shaped
runs that are not delimited by word boundaries are not redacted, and
the truncation cut can re-expose a shape at the cut point. -/
theorem c8_redaction_amended (s : List Char) :
    (sanitize_for_logging s).length ≤ 214 ∧
      hasBO cardShape (redactStage s) = false ∧
      hasBO ssnShape (redactStage s) = false := by
  refine ⟨?_, ?_, ?_⟩
  · rw [sanitize_for_logging]
    split_ifs with h
    · simp only [List.length_append, List.length_take, truncMarker_length]
      omega
    · omega
  · exact subShape_ssn_preserves_card _ (subShape_card_no_bo (emailSub s))
  · exact subShape_ssn_no_bo _

set_option maxRecDepth 100000 in
set_option maxHeartbeats 2000000 in
/-- Counterexample to claim C8 as stated: sanitize_for_logging does not
remove every email-shaped, card-number-shaped or SSN-shaped substring.
A card-shaped run directly preceded by a letter carries no word
boundary and the card regex leaves it in place; for a long input whose
SSN-shaped run is followed by a digit (so the SSN regex does not
fire), the truncation to 200 characters cuts off that digit and the
returned text contains the SSN-shaped run, even word-boundary-
delimited; and the input a@b.cd0 is returned unchanged — the trailing
digit suppresses the closing word boundary of the email regex — so the
output still contains the email-shaped substring a@b.cd. -/
theorem c8_counterexample :
    hasShape cardShape (sanitize_for_logging ("a1234-5678-9012-3456".toList)) = true ∧
      hasBO ssnShape (sanitize_for_logging c8Input) = true ∧
      sanitize_for_logging ("a@b.cd0".toList) = "a@b.cd0".toList ∧
      hasEmailShape (sanitize_for_logging ("a@b.cd0".toList)) = true := by
  refine ⟨?_, ?_, ?_, ?_⟩
  · decide
  · decide
  · decide
  · decide
